import Mathlib

/-!
Verification development for the extractEmail tool (src/extractEmail.mjs).

This file is a shallow embedding of the content-resolution pipeline of the
source: the MIME part-tree navigation (findTextPart, findHtmlPart,
findAttachmentsInStruct), the attachment summary resolver
(getAttachmentFilename, getAttachmentSummary, getAttachmentSummaryFromMessage),
the body helpers (processBody, hasBodyContent, truncateBody), the columnar
table extractor (parseHtmlTablesToColumnarJson, a regex-scanning pipeline),
the hierarchical JSON structurer (parseHtmlToHierarchicalJson and its helpers
addToResult, collapseWrappers, processChildren, processElement, processTable),
the custom pipe-delimited table formatter installed into html-to-text by
sanitizeHtml, and the per-message body-resolution fallback chain of the main
loop.

External collaborators (the IMAP transport, the htmlparser2 DOM parser, the
mailparser MIME parser, and the html-to-text rendering engine) are modelled as
explicit function parameters / oracle inputs; everything else is translated
from the JavaScript source.  JavaScript strings are modelled as Lean `String`
(code-point granularity), `undefined`/`null` as `Option`, and JS truthiness of
strings as "non-empty".  Case-insensitive operations use an ASCII lowering,
which is what every relevant comparison in the source exercises.

Recursions that are not structural in the source (regex-style rescanning,
wrapper collapsing) are written with an explicit fuel parameter initialised
to a bound that the recursion depth can never reach (each step consumes at
least one character / descends to a strict subterm), so that all definitions
evaluate by `rfl`/`decide`.
-/

namespace ExtractEmail

/-! ## JavaScript-style string helpers -/

/-- Characters treated as whitespace by JS `String.prototype.trim` and the
`\s` regex class (the subset that can actually occur in this pipeline:
space, tab, LF, CR, VT, FF, NBSP, BOM). -/
def isJsWhitespaceChar (c : Char) : Bool :=
  c == ' ' || c == '\t' || c == '\n' || c == '\r' ||
  c == Char.ofNat 11 || c == Char.ofNat 12 || c == Char.ofNat 160 ||
  c == Char.ofNat 65279

/-- Trim JS-whitespace from both ends of a character list. -/
def jsTrimList (cs : List Char) : List Char :=
  ((cs.dropWhile isJsWhitespaceChar).reverse.dropWhile isJsWhitespaceChar).reverse

/-- Model of JS `String.prototype.trim`. -/
def jsTrim (s : String) : String := String.mk (jsTrimList s.data)

/-- Model of JS `String.prototype.substring(0, n)`. -/
def jsSubstringTo (s : String) (n : Nat) : String := String.mk (s.data.take n)

/-- ASCII lowering of one character (JS `toLowerCase` restricted to ASCII,
which is all the source compares case-insensitively). -/
def asciiLowerChar (c : Char) : Char :=
  if 'A' ≤ c ∧ c ≤ 'Z' then Char.ofNat (c.toNat + 32) else c

/-- ASCII lowering of a string (model of JS `toLowerCase`). -/
def asciiLowerString (s : String) : String := String.mk (s.data.map asciiLowerChar)

/-- JS truthiness of a possibly-absent string (`undefined` and `''` are falsy). -/
def strTruthy : Option String → Bool
  | some s => s != ""
  | none => false

/-- Model of `x || y` for a possibly-absent string `x` with fallback `y`. -/
def jsOrElse (a : Option String) (b : String) : String :=
  match a with
  | some s => if s != "" then s else b
  | none => b

/-- One pass of `replace(/\s+/g, ' ')`: every maximal whitespace run becomes a
single space.  The boolean tracks whether the previous character was part of a
whitespace run. -/
def collapseWsList : List Char → Bool → List Char
  | [], _ => []
  | c :: rest, prevWs =>
    if isJsWhitespaceChar c then
      if prevWs then collapseWsList rest true
      else ' ' :: collapseWsList rest true
    else c :: collapseWsList rest false

/-- Model of `s.replace(/\s+/g, ' ')`. -/
def collapseWs (s : String) : String := String.mk (collapseWsList s.data false)

/-- Try to match `pat` literally at the head of the input; on success return
the remainder. -/
def matchLit : List Char → List Char → Option (List Char)
  | [], rest => some rest
  | _ :: _, [] => none
  | p :: ps, c :: cs => if c == p then matchLit ps cs else none

/-- Case-insensitive (ASCII) variant of `matchLit`. -/
def matchLitCI : List Char → List Char → Option (List Char)
  | [], rest => some rest
  | _ :: _, [] => none
  | p :: ps, c :: cs => if asciiLowerChar c == asciiLowerChar p then matchLitCI ps cs else none

/-- Model of `s.replace(/LIT/g, rep)` for a literal pattern: left-to-right,
non-overlapping.  Fuel bounds the scan; each step consumes at least one input
character, so `input.length` fuel is always enough. -/
def replaceAllGo : Nat → List Char → List Char → List Char → List Char
  | 0, _, _, s => s
  | _ + 1, _, _, [] => []
  | fuel + 1, pat, rep, c :: rest =>
    match matchLit pat (c :: rest) with
    | some after => rep ++ replaceAllGo fuel pat rep after
    | none => c :: replaceAllGo fuel pat rep rest

/-- Model of `s.replace(/pat/g, rep)` for a (non-empty) literal pattern. -/
def jsReplaceAll (pat rep s : String) : String :=
  String.mk (replaceAllGo s.data.length pat.data rep.data s.data)

/-! ## Generic JSON-ish value type for structured bodies -/

/-- A JavaScript value as produced by the two JSON structurers: a string, an
array, or a plain object (modelled as an insertion-ordered association list,
whose keys are unique by construction of `addToResult`). -/
inductive JVal where
  | str (s : String)
  | arr (xs : List JVal)
  | obj (fields : List (String × JVal))

/-- The body value flowing through the main loop: a string, or a structured
object produced by one of the JSON projections. -/
inductive BodyVal where
  | str (s : String)
  | obj (fields : List (String × JVal))

/-! ## MIME struct model (imap-simple message structures)

A `StructVal` is a node of the `msg.attributes.struct` value: either a part
object (with content type, disposition, params and nested parts) or a raw
array of nodes (the upstream array-of-array artifact the navigators
tolerate).  Absent JS fields are `none`. -/

/-- `disposition.params` of a part (only `filename` is consulted). -/
structure DispositionParams where
  filename : Option String

/-- The `disposition` field of a part. -/
structure Disposition where
  type : Option String
  params : Option DispositionParams

/-- The `params` field of a part (`name` / `filename` hints). -/
structure PartParams where
  name : Option String
  filename : Option String

/-- A node of a message struct tree. -/
inductive StructVal where
  | part (type subtype : Option String) (disposition : Option Disposition)
         (params : Option PartParams) (parts : Option StructVal)
  | arr (xs : List StructVal)

/-- The four metadata fields of a part that attachment classification and
filename resolution read (the shape pushed onto the attachments list). -/
structure AttachmentPart where
  type : Option String
  subtype : Option String
  disposition : Option Disposition
  params : Option PartParams

/-- `disposition && disposition.type ? disposition.type.toLowerCase() : ''` -/
def dispositionTypeOf (disposition : Option Disposition) : String :=
  match disposition with
  | some d =>
    match d.type with
    | some t => if t != "" then asciiLowerString t else ""
    | none => ""
  | none => ""

/-- `Boolean(disposition && disposition.params && disposition.params.filename)` -/
def hasDispositionFilenameOf : Option Disposition → Bool
  | some d =>
    match d.params with
    | some p => strTruthy p.filename
    | none => false
  | none => false

/-- `Boolean(part.params && (part.params.name || part.params.filename))` -/
def hasPartNameOf : Option PartParams → Bool
  | some p => strTruthy p.name || strTruthy p.filename
  | none => false

/-- `part.type && part.type.toLowerCase() === 'application'` as a boolean. -/
def isApplicationOf : Option String → Bool
  | some t => t != "" && asciiLowerString t == "application"
  | none => false

/-- The `if / else if` classification chain of `findAttachmentsInStruct`,
returning which branch pushed the part (0-based), or `none` when no branch
fired. -/
def attachmentBranch (type subtype : Option String) (disposition : Option Disposition)
    (params : Option PartParams) : Option (Fin 4) :=
  if dispositionTypeOf disposition == "attachment" then some 0
  else if hasDispositionFilenameOf disposition || hasPartNameOf params then some 1
  else if dispositionTypeOf disposition == "inline" &&
          (hasDispositionFilenameOf disposition || isApplicationOf type) then some 2
  else if isApplicationOf type && strTruthy subtype then some 3
  else none

/-- A part is pushed onto the attachments list iff some branch of the chain
fires. -/
def isAttachmentPart (type subtype : Option String) (disposition : Option Disposition)
    (params : Option PartParams) : Bool :=
  (attachmentBranch type subtype disposition params).isSome

mutual

/-- `findAttachmentsInStruct` applied to one struct node, threading the
accumulated attachments list (the source mutates a shared array; we thread it
in traversal order).  A part is classified, then its `parts` field is
recursed into when present. -/
def findAttachmentsInStructVal : StructVal → List AttachmentPart → List AttachmentPart
  | .arr xs, attachments => findAttachmentsInStructList xs attachments
  | .part t s d p ps, attachments =>
    match ps with
    | some v =>
      findAttachmentsInStructVal v
        (if isAttachmentPart t s d p then attachments ++ [⟨t, s, d, p⟩] else attachments)
    | none =>
      if isAttachmentPart t s d p then attachments ++ [⟨t, s, d, p⟩] else attachments

/-- The `for (const part of partList)` loop of `findAttachmentsInStruct`. -/
def findAttachmentsInStructList : List StructVal → List AttachmentPart → List AttachmentPart
  | [], attachments => attachments
  | x :: rest, attachments =>
    findAttachmentsInStructList rest (findAttachmentsInStructVal x attachments)

end

/-- `findAttachmentsInStruct(parts, [])`: `null`/`undefined` yields the
(empty) accumulator; an array iterates its elements; a single part object is
wrapped as `[parts]`, which is exactly the `part` case of
`findAttachmentsInStructVal`. -/
def findAttachmentsInStruct (parts : Option StructVal) : List AttachmentPart :=
  match parts with
  | none => []
  | some v => findAttachmentsInStructVal v []

/-- `getAttachmentFilename`: disposition filename → params.name →
params.filename → synthesized from subtype → literal fallback. -/
def getAttachmentFilename (attachment : AttachmentPart) : String :=
  let dispFilename := attachment.disposition.bind fun d => d.params.bind fun p => p.filename
  if strTruthy dispFilename then dispFilename.getD ""
  else
    let pname := attachment.params.bind fun p => p.name
    if strTruthy pname then pname.getD ""
    else
      let pfilename := attachment.params.bind fun p => p.filename
      if strTruthy pfilename then pfilename.getD ""
      else if strTruthy attachment.subtype then
        "attachment." ++ asciiLowerString (attachment.subtype.getD "")
      else "attachment"

/-- The JS value returned by the attachment summary: `false`, `true`, or a
name string. -/
inductive AttachmentSummary where
  | bool (b : Bool)
  | str (s : String)
deriving DecidableEq

/-- JS truthiness of an attachment summary value. -/
def summaryTruthy : AttachmentSummary → Bool
  | .bool b => b
  | .str s => s != ""

/-- `getAttachmentSummary(struct)`. -/
def getAttachmentSummary (struct : Option StructVal) : AttachmentSummary :=
  let attachments := findAttachmentsInStruct struct
  if attachments.length == 0 then .bool false
  else
    let names := (attachments.map getAttachmentFilename).filter fun n => n != ""
    if names.length == 0 then .bool true
    else
      match names with
      | [n] => .str n
      | ns => .str (String.intercalate ", " ns)

/-- One attachment record reported by the external `simpleParser` (mailparser);
only the (possibly absent) filename is consulted. -/
structure ParsedAttachment where
  filename : Option String

/-- `getAttachmentSummaryFromMessage(msg, connection)`.

External pieces are modelled at the granularity the source uses them:
`rawPart` is the pre-fetched raw message part body after `normalizePartBody`
(via `getRawMessagePart`), if any; `refetchRaw` is the result of the
`connection.search` re-fetch (`none` when no connection/uid is available,
`some (.error _)` when the awaited call throws — caught silently — and
`some (.ok r)` its raw body otherwise); `parseAttachments` is `simpleParser`
restricted to its reported attachment list (`.error` models a thrown parse
failure, which the source catches and maps to `false`). -/
def getAttachmentSummaryFromMessage (struct : Option StructVal)
    (rawPart : Option String) (refetchRaw : Option (Except Unit (Option String)))
    (parseAttachments : String → Except Unit (List ParsedAttachment)) :
    AttachmentSummary :=
  let structSummary := getAttachmentSummary struct
  if summaryTruthy structSummary then structSummary
  else
    let rawPartResolved : Option String :=
      match rawPart with
      | some r => some r
      | none =>
        match refetchRaw with
        | some (.ok r) => r
        | some (.error _) => none
        | none => none
    match rawPartResolved with
    | none => .bool false
    | some rawText =>
      if jsTrim rawText == "" then .bool false
      else
        match parseAttachments rawText with
        | .error _ => .bool false
        | .ok atts =>
          if atts.length == 0 then .bool false
          else
            let names := ((atts.map fun a => a.filename).filterMap fun o => o).filter
              fun n => n != ""
            if names.length == 0 then .bool true
            else
              match names with
              | [n] => .str n
              | ns => .str (String.intercalate ", " ns)

/-! ## Body helpers: hasBodyContent / truncateBody -/

/-- JS truthiness of a body value (`''` is falsy, every object is truthy). -/
def bodyTruthy : BodyVal → Bool
  | .str s => s != ""
  | .obj _ => true

/-- `hasBodyContent(body)`: non-blank string, or object with at least one
key. -/
def hasBodyContent : BodyVal → Bool
  | .str s => if s == "" then false else jsTrim s != ""
  | .obj fields => fields.length != 0

/-- `MAX_BODY_PREVIEW_LENGTH` -/
def MAX_BODY_PREVIEW_LENGTH : Nat := 200

/-- `truncateBody(bodyText)`; the module-level `fullBody`, `htmlMode` and
`emailNumber` flags it closes over are passed explicitly. -/
def truncateBody (fullBody htmlMode : Bool) (emailNumber : Option Int)
    (bodyText : BodyVal) : BodyVal :=
  if fullBody || htmlMode || emailNumber.isSome then bodyText
  else if !(bodyTruthy bodyText) then bodyText
  else
    match bodyText with
    | .obj fields => .obj fields
    | .str s =>
      if s.length ≤ MAX_BODY_PREVIEW_LENGTH then .str s
      else .str (jsSubstringTo s MAX_BODY_PREVIEW_LENGTH ++ "...")

/-! ## Columnar table extractor (`parseHtmlTablesToColumnarJson`)

The source locates tables, rows and cells with the regexes
`/<table[^>]*>(.*?)<\/table>/gis`, `/<tr[^>]*>(.*?)<\/tr>/gis` and
`/<(th|td)[^>]*>(.*?)<\/\1>/gis`, then strips tags, decodes a fixed set of
entities and collapses whitespace in each cell.  The scanners below implement
exactly these regex semantics (case-insensitive literal open tag, greedy
`[^>]*` up to the closing `>`, lazy `(.*?)` up to the earliest closing tag,
resuming after each match). -/

/-- Consume `[^>]*>` — drop characters up to and including the first `>`. -/
def skipToTagEnd : List Char → Option (List Char)
  | [] => none
  | c :: rest => if c == '>' then some rest else skipToTagEnd rest

/-- Split the input at the earliest case-insensitive occurrence of `pat`:
returns the segment before the occurrence and the remainder after it. -/
def splitAtCI (pat : List Char) : List Char → Option (List Char × List Char)
  | [] =>
    match matchLitCI pat [] with
    | some rest => some ([], rest)
    | none => none
  | c :: rest =>
    match matchLitCI pat (c :: rest) with
    | some after => some ([], after)
    | none =>
      match splitAtCI pat rest with
      | some (pre, after) => some (c :: pre, after)
      | none => none

/-- One match attempt of `/<NAME[^>]*>(.*?)<\/NAME>/is` at the current
position: the literal open tag (case-insensitive), `[^>]*>`, then the lazy
body up to the earliest closing tag.  Returns the captured body and the
remainder after the closing tag. -/
def matchTagBlockAt (name : List Char) (s : List Char) : Option (List Char × List Char) :=
  match matchLitCI ('<' :: name) s with
  | some afterName =>
    match skipToTagEnd afterName with
    | some afterOpen => splitAtCI ('<' :: '/' :: (name ++ ['>'])) afterOpen
    | none => none
  | none => none

/-- The `while ((match = regex.exec(html)) !== null)` loop for
`/<NAME[^>]*>(.*?)<\/NAME>/gis`: try a match at each position left to right,
resuming after each complete match.  Fuel bounds the scan (each step consumes
at least one character). -/
def extractTagBlocksGo (name : List Char) : Nat → List Char → List (List Char)
  | 0, _ => []
  | _ + 1, [] => []
  | fuel + 1, c :: rest =>
    match matchTagBlockAt name (c :: rest) with
    | some (inner, afterClose) => inner :: extractTagBlocksGo name fuel afterClose
    | none => extractTagBlocksGo name fuel rest

/-- All captured bodies of `/<NAME[^>]*>(.*?)<\/NAME>/gis` over the input. -/
def extractTagBlocks (name : String) (s : String) : List String :=
  (extractTagBlocksGo name.data s.data.length s.data).map String.mk

/-- The cell regex `/<(th|td)[^>]*>(.*?)<\/\1>/gis`: at each position the
alternatives `th` then `td` are tried (with the back-referenced closing tag),
resuming after each match. -/
def extractCellsGo : Nat → List Char → List (List Char)
  | 0, _ => []
  | _ + 1, [] => []
  | fuel + 1, c :: rest =>
    match matchTagBlockAt ['t', 'h'] (c :: rest) with
    | some (inner, after) => inner :: extractCellsGo fuel after
    | none =>
      match matchTagBlockAt ['t', 'd'] (c :: rest) with
      | some (inner, after) => inner :: extractCellsGo fuel after
      | none => extractCellsGo fuel rest

/-- Drop characters up to and including the first `>` (used by tag
stripping); `none` when no `>` remains. -/
def dropThroughGt : List Char → Option (List Char)
  | [] => none
  | c :: rest => if c == '>' then some rest else dropThroughGt rest

/-- `cell.replace(/<[^>]+>/g, '')`: remove every `<`…`>` run containing at
least one character between the brackets. -/
def stripHtmlTagsGo : Nat → List Char → List Char
  | 0, s => s
  | _ + 1, [] => []
  | fuel + 1, c :: rest =>
    if c == '<' then
      match rest with
      | [] => [c]
      | d :: more =>
        if d == '>' then c :: stripHtmlTagsGo fuel rest
        else
          match dropThroughGt (d :: more) with
          | some after => stripHtmlTagsGo fuel after
          | none => c :: stripHtmlTagsGo fuel rest
    else c :: stripHtmlTagsGo fuel rest

/-- The cell-cleanup chain of `parseHtmlTablesToColumnarJson`: strip tags,
decode the six handled entities, normalize line breaks, collapse whitespace,
trim. -/
def cleanCellText (cell : String) : String :=
  let x := String.mk (stripHtmlTagsGo cell.data.length cell.data)
  let x := jsReplaceAll "&nbsp;" " " x
  let x := jsReplaceAll "&amp;" "&" x
  let x := jsReplaceAll "&lt;" "<" x
  let x := jsReplaceAll "&gt;" ">" x
  let x := jsReplaceAll "&quot;" "\"" x
  let x := jsReplaceAll "&#39;" "\x27" x
  let x := jsReplaceAll "\r\n" " " x
  let x := jsReplaceAll "\n" " " x
  jsTrim (collapseWs x)

/-- `if (!result[header]) result[header] = []` — initialise a column slot
(an existing array, even empty, is truthy and kept). -/
def colInit (result : List (String × List String)) (header : String) :
    List (String × List String) :=
  match result.lookup header with
  | some _ => result
  | none => result ++ [(header, [])]

/-- `result[header].push(v)` — append to the (first) column with this name. -/
def colPush : List (String × List String) → String → String → List (String × List String)
  | [], _, _ => []
  | (k, vs) :: rest, header, v =>
    if k == header then (k, vs ++ [v]) :: rest else (k, vs) :: colPush rest header v

/-- The per-table body of the `tables.forEach` loop. -/
def processOneTable (result : List (String × List String)) (tableHtml : String) :
    List (String × List String) :=
  let rows := extractTagBlocks "tr" tableHtml
  if rows.length == 0 then result
  else
    let parsedRows := rows.map fun row =>
      ((extractCellsGo row.data.length row.data).map String.mk).map cleanCellText
    if parsedRows.length == 0 then result
    else
      match parsedRows with
      | [] => result
      | headers :: dataRows =>
        if headers.length == 0 then result
        else
          let result := headers.foldl colInit result
          dataRows.foldl
            (fun res row =>
              headers.enum.foldl (fun r iv => colPush r iv.2 (row.getD iv.1 "")) res)
            result

/-- `parseHtmlTablesToColumnarJson(htmlContent)`. -/
def parseHtmlTablesToColumnarJson (htmlContent : String) : List (String × List String) :=
  if htmlContent == "" then []
  else
    let tables := extractTagBlocks "table" htmlContent
    if tables.length == 0 then []
    else tables.foldl processOneTable []

/-- Columnar result as a JS object value (each column is an array of
strings). -/
def columnarToJVal (cols : List (String × List String)) : List (String × JVal) :=
  cols.map fun kv => (kv.1, JVal.arr (kv.2.map JVal.str))

/-- The test `/<[a-z][\s\S]*>/i.test(body)` of the main loop: a `<` followed
by an ASCII letter with some `>` after the letter. -/
def isAsciiLetter (c : Char) : Bool :=
  ('a' ≤ c && c ≤ 'z') || ('A' ≤ c && c ≤ 'Z')

/-- Scan for a position matching `<[a-z][\s\S]*>` (case-insensitive). -/
def htmlTagTestGo : List Char → Bool
  | [] => false
  | '<' :: rest =>
    (match rest with
     | c :: more => (isAsciiLetter c && more.contains '>') || htmlTagTestGo rest
     | [] => false)
  | _ :: rest => htmlTagTestGo rest

/-- `/<[a-z][\s\S]*>/i.test(s)` -/
def htmlTagTest (s : String) : Bool := htmlTagTestGo s.data

/-! ## DOM model

`parseHtmlToHierarchicalJson` and the custom table formatter of
`sanitizeHtml` walk the DOM produced by the external htmlparser2 library
(`parseDocument`).  A node is a text node (`type === 'text'`, carrying
`data`), an element (`type === 'tag'`, carrying `name` and `children`), or
some other node kind (comment/directive — no `data`, and never of type
`text`/`tag`).  The parser itself is external and is passed in as an oracle
`String → List Dom` (the document's child list) where needed. -/

inductive Dom where
  | text (data : String)
  | tag (name : String) (children : List Dom)
  | comment

/-- `node.children || []` (text and comment nodes have no children). -/
def domChildren : Dom → List Dom
  | .tag _ cs => cs
  | _ => []

/-- Replace ` ` with a plain space (`.replace(/ /g, ' ')`). -/
def nbspToSpace (s : String) : String :=
  String.mk (s.data.map fun c => if c == Char.ofNat 160 then ' ' else c)

mutual

/-- `getTextContent(node)`: text data (NBSP-normalized) for text nodes,
concatenated recursion otherwise; nodes without children contribute `''`. -/
def getTextContent : Dom → String
  | .text d => nbspToSpace d
  | .comment => ""
  | .tag _ cs => getTextContentList cs

/-- `node.children.map(getTextContent).join('')` -/
def getTextContentList : List Dom → String
  | [] => ""
  | c :: rest => getTextContent c ++ getTextContentList rest

end

/-- `SKIP_TAGS` membership. -/
def isSkipTag (n : String) : Bool :=
  n == "style" || n == "script" || n == "head" || n == "meta" ||
  n == "link" || n == "noscript"

/-- `TRANSPARENT_TAGS` membership. -/
def isTransparentTag (n : String) : Bool :=
  n == "html" || n == "body" || n == "tbody" || n == "thead" || n == "tfoot"

/-- `VOID_TAGS` membership. -/
def isVoidTag (n : String) : Bool :=
  n == "img" || n == "br" || n == "hr" || n == "input" || n == "wbr" ||
  n == "col" || n == "area" || n == "base" || n == "embed" ||
  n == "source" || n == "track"

/-- The filter of `getMeaningfulChildren`: non-blank text, or a tag that is
neither skipped nor void. -/
def isMeaningfulChild : Dom → Bool
  | .text d => jsTrim d != ""
  | .tag n _ => !(isSkipTag n) && !(isVoidTag n)
  | .comment => false

/-- `getMeaningfulChildren(node)` -/
def getMeaningfulChildren (node : Dom) : List Dom :=
  (domChildren node).filter isMeaningfulChild

/-- Cells of one `tr` inside `processTable`: `td`/`th` tag children, each
contributing its trimmed text content. -/
def hierRowCells (children : List Dom) : List String :=
  children.filterMap fun c =>
    match c with
    | .tag n ccs =>
      if n == "td" || n == "th" then some (jsTrim (getTextContent (.tag n ccs)))
      else none
    | _ => none

mutual

/-- `findRows` of `processTable` applied to one tag child: a `tr` yields its
cell row (when non-empty), any other tag recurses into its children. -/
def hierFindRowsNode : Dom → List (List String)
  | .text _ => []
  | .comment => []
  | .tag n cs =>
    if n == "tr" then
      (let cells := hierRowCells cs
       if cells.length == 0 then [] else [cells])
    else hierFindRowsList cs

/-- The `for (const child of node.children)` loop of `findRows` (non-tag
children are skipped). -/
def hierFindRowsList : List Dom → List (List String)
  | [] => []
  | c :: rest =>
    (match c with
     | .tag _ _ => hierFindRowsNode c
     | _ => []) ++ hierFindRowsList rest

end

/-- `processTable(tableNode)`: collect rows from the table's children. -/
def processTable (tableNode : Dom) : List (List String) :=
  hierFindRowsList (domChildren tableNode)

/-- A table value as stored in the hierarchical result: an array of row
arrays of cell strings. -/
def tableRowsToJVal (rows : List (List String)) : JVal :=
  .arr (rows.map fun r => .arr (r.map JVal.str))

/-- `key in obj` / `obj[key]` over the insertion-ordered field list. -/
def lookupField : List (String × JVal) → String → Option JVal
  | [], _ => none
  | (k, v) :: rest, key => if k == key then some v else lookupField rest key

/-- `obj[key] = v` for an existing key (in-place update keeps the key's
position). -/
def setField : List (String × JVal) → String → JVal → List (String × JVal)
  | [], _, _ => []
  | (k, v) :: rest, key, value =>
    if k == key then (k, value) :: rest else (k, v) :: setField rest key value

/-- `Array.isArray(v)` -/
def isArrayJ : JVal → Bool
  | .arr _ => true
  | _ => false

/-- `addToResult(obj, key, value)`: first occurrence stores the value; a
duplicate key appends when the slot is already an array and the new value is
not an array, and otherwise re-wraps the slot as the pair
`[existing, value]`. -/
def addToResult (obj : List (String × JVal)) (key : String) (value : JVal) :
    List (String × JVal) :=
  match lookupField obj key with
  | some (JVal.arr xs) =>
    if !(isArrayJ value) then setField obj key (.arr (xs ++ [value]))
    else setField obj key (.arr [JVal.arr xs, value])
  | some existing => setField obj key (.arr [existing, value])
  | none => obj ++ [(key, value)]

/-- `meaningful[0].type === 'tag'` for a singleton meaningful-children
list — the guard for continuing a wrapper collapse. -/
def singleTagChildOf : List Dom → Bool
  | [Dom.tag _ _] => true
  | _ => false

/-- `node.name || 'root'` -/
def jsNodeName : Dom → String
  | .tag n _ => if n != "" then n else "root"
  | _ => "root"

mutual

/-- Size of a DOM node (fuel bound for the non-structural recursions). -/
def domSize : Dom → Nat
  | .text _ => 1
  | .comment => 1
  | .tag _ cs => 1 + domListSize cs

/-- Size of a DOM node list. -/
def domListSize : List Dom → Nat
  | [] => 1
  | c :: rest => 1 + domSize c + domListSize rest

end

/-- `collapseWrappers(node)` with explicit fuel.  Every descent is into a
meaningful child — a strict subterm — so `domSize node` fuel is never
exhausted. -/
def collapseWrappersGo : Nat → Dom → String × Dom
  | 0, node => (jsNodeName node, node)
  | fuel + 1, node =>
    match getMeaningfulChildren node with
    | [Dom.tag cn ccs] =>
      if cn == "table" then ("table", Dom.tag cn ccs)
      else if isTransparentTag cn then collapseWrappersGo fuel (Dom.tag cn ccs)
      else if singleTagChildOf (getMeaningfulChildren (Dom.tag cn ccs)) then
        collapseWrappersGo fuel (Dom.tag cn ccs)
      else (cn, Dom.tag cn ccs)
    | _ => (jsNodeName node, node)

/-- `collapseWrappers(node)` -/
def collapseWrappers (node : Dom) : String × Dom :=
  collapseWrappersGo (domSize node) node

/-- Flush accumulated text into the `tag-data` slot. -/
def flushPending (result : List (String × JVal)) (pendingText : String) :
    List (String × JVal) :=
  if pendingText != "" then addToResult result "tag-data" (.str pendingText)
  else result

mutual

/-- `processChildren(children)` with the `result`/`pendingText` loop state
made explicit.  Shared fuel (decremented on every call) makes the mutual
recursion structural; every call strictly shrinks its subject, so
`domListSize children` initial fuel is never exhausted. -/
def processChildrenGo : Nat → List Dom → List (String × JVal) → String →
    List (String × JVal)
  | 0, _, result, pendingText => flushPending result pendingText
  | _ + 1, [], result, pendingText => flushPending result pendingText
  | fuel + 1, child :: rest, result, pendingText =>
    match child with
    | .text d =>
      let text := jsTrim (nbspToSpace d)
      let pendingText :=
        if text != "" then
          (if pendingText != "" then pendingText ++ " " ++ text else text)
        else pendingText
      processChildrenGo fuel rest result pendingText
    | .comment => processChildrenGo fuel rest result pendingText
    | .tag n cs =>
      if isSkipTag n then processChildrenGo fuel rest result pendingText
      else if isVoidTag n then processChildrenGo fuel rest result pendingText
      else
        let result := flushPending result pendingText
        if n == "table" then
          processChildrenGo fuel rest
            (addToResult result "table" (tableRowsToJVal (processTable (Dom.tag n cs)))) ""
        else if isTransparentTag n then
          let inner := processChildrenGo fuel cs [] ""
          processChildrenGo fuel rest
            (inner.foldl (fun r kv => addToResult r kv.1 kv.2) result) ""
        else
          match collapseWrappers (Dom.tag n cs) with
          | (tag, deepNode) =>
            if tag == "table" then
              processChildrenGo fuel rest
                (addToResult result "table" (tableRowsToJVal (processTable deepNode))) ""
            else
              match processElementGo fuel deepNode with
              | some v => processChildrenGo fuel rest (addToResult result tag v) ""
              | none => processChildrenGo fuel rest result ""

/-- `processElement(node)`: leaf/all-text nodes contribute their trimmed
text (`null` when blank), otherwise recurse into the children. -/
def processElementGo : Nat → Dom → Option JVal
  | 0, _ => none
  | fuel + 1, node =>
    let meaningful := getMeaningfulChildren node
    if meaningful.length == 0 ||
       meaningful.all (fun c => match c with | .text _ => true | _ => false) then
      (let text := jsTrim (getTextContent node)
       if text != "" then some (.str text) else none)
    else some (.obj (processChildrenGo fuel (domChildren node) [] ""))

end

/-- The whole-document reduction with the final single-key unwrap (a lone
top-level key whose value is a non-array object is unwrapped one level). -/
def parseHtmlToHierarchicalJsonDom (docChildren : List Dom) : List (String × JVal) :=
  let result := processChildrenGo (domListSize docChildren) docChildren [] ""
  match result with
  | [(_, JVal.obj fields)] => fields
  | _ => result

/-- `parseHtmlToHierarchicalJson(htmlContent)`, with the external
htmlparser2 `parseDocument` supplied as an oracle returning the document's
child nodes. -/
def parseHtmlToHierarchicalJson (parseDoc : String → List Dom) (htmlContent : String) :
    List (String × JVal) :=
  if htmlContent == "" then []
  else parseHtmlToHierarchicalJsonDom (parseDoc htmlContent)

/-! ## The custom `dataTable` formatter of `sanitizeHtml`

`sanitizeHtml` delegates rendering to the external html-to-text engine but
installs its own `dataTable` formatter for `table` elements.  The formatter is
repository code: it walks the table's DOM, renders each `tr` with non-empty
cells as `| cell | cell | ... |` (cell text flattened from text nodes only,
whitespace-collapsed, trimmed) and emits the rows joined by newlines as one
block (one leading and one trailing line break, added by the external
builder). -/

mutual

/-- The `extractText` accumulator of `getCellText`: concatenates the `data`
of all descendant text nodes. -/
def cellTextNode : Dom → String
  | .text d => d
  | .comment => ""
  | .tag _ cs => cellTextList cs

/-- `node.children.forEach(extractText)` -/
def cellTextList : List Dom → String
  | [] => ""
  | c :: rest => cellTextNode c ++ cellTextList rest

end

/-- `getCellText(cell)`: flattened text of the cell's children,
`.replace(/\s+/g, ' ').trim()`. -/
def getCellText (cell : Dom) : String :=
  jsTrim (collapseWs (cellTextList (domChildren cell)))

/-- A `td`/`th` child contributes its cell text. -/
def fmtCellOf : Dom → Option String
  | .tag n cs =>
    if n == "td" || n == "th" then some (getCellText (.tag n cs)) else none
  | _ => none

mutual

/-- `processRows(node)` of the `dataTable` formatter: a `tr` node with cells
emits one pipe-delimited line; any other node recurses into its children. -/
def fmtRowsNode : Dom → List String
  | .text _ => []
  | .comment => []
  | .tag n cs =>
    if n == "tr" then
      (let cells := cs.filterMap fmtCellOf
       if cells.length > 0 then ["| " ++ String.intercalate " | " cells ++ " |"]
       else [])
    else fmtRowsList cs

/-- `node.children.forEach(processRows)` -/
def fmtRowsList : List Dom → List String
  | [] => []
  | c :: rest => fmtRowsNode c ++ fmtRowsList rest

end

/-- The `rows` list the formatter builds for a table element. -/
def dataTableRows (elem : Dom) : List String := fmtRowsNode elem

/-- The inline text the formatter adds to the output block:
`rows.join('\n')`. -/
def dataTableInline (elem : Dom) : String :=
  String.intercalate "\n" (dataTableRows elem)

/-! ## Body resolution pipeline (main loop, `findTextPart`/`findHtmlPart`,
`processBody`, and the three-stage fallback with the structured-mode
post-processing step) -/

mutual

/-- One element of the `for (const part of parts)` loop of `findTextPart`:
an array recurses into its elements; a part is returned when it is
`text/plain`, otherwise its `parts` field is searched. -/
def findTextPartEntry : StructVal → Option StructVal
  | .arr xs => findTextPartList xs
  | .part t s d p ps =>
    if t == some "text" && s == some "plain" then some (.part t s d p ps)
    else
      match ps with
      | some v => findTextPartEntry v
      | none => none

/-- `findTextPart(parts)`: first depth-first `text/plain` part. -/
def findTextPartList : List StructVal → Option StructVal
  | [] => none
  | x :: rest =>
    match findTextPartEntry x with
    | some r => some r
    | none => findTextPartList rest

end

/-- `findTextPart(struct)` over a message struct (an array of nodes). -/
def findTextPart (parts : List StructVal) : Option StructVal :=
  findTextPartList parts

mutual

/-- One element of the `for (const part of parts)` loop of `findHtmlPart`. -/
def findHtmlPartEntry : StructVal → Option StructVal
  | .arr xs => findHtmlPartList xs
  | .part t s d p ps =>
    if t == some "text" && s == some "html" then some (.part t s d p ps)
    else
      match ps with
      | some v => findHtmlPartEntry v
      | none => none

/-- `findHtmlPart(parts)`: first depth-first `text/html` part. -/
def findHtmlPartList : List StructVal → Option StructVal
  | [] => none
  | x :: rest =>
    match findHtmlPartEntry x with
    | some r => some r
    | none => findHtmlPartList rest

end

/-- `findHtmlPart(struct)` over a message struct (an array of nodes). -/
def findHtmlPart (parts : List StructVal) : Option StructVal :=
  findHtmlPartList parts

/-- The `jsonMode` values (`null` is modelled as `none` at use sites). -/
inductive JsonMode where
  | jdefault
  | jhtml
  | jtable
deriving DecidableEq, BEq

/-- `jsonMode === 'html' || jsonMode === 'table'` -/
def needsHtmlStructure (jsonMode : Option JsonMode) : Bool :=
  jsonMode == some .jhtml || jsonMode == some .jtable

/-- `processBody(bodyContent, isHtml)`.  The external html-to-text renderer
behind `sanitizeHtml` is the `sanitize` oracle; the external htmlparser2
`parseDocument` used by the hierarchical projection is the `parseDoc`
oracle. -/
def processBody (jsonMode : Option JsonMode) (htmlMode : Bool)
    (parseDoc : String → List Dom) (sanitize : String → String)
    (bodyContent : String) (isHtml : Bool) : BodyVal :=
  if bodyContent = "" then .str bodyContent
  else if jsonMode = some .jhtml ∧ isHtml then
    .obj (parseHtmlToHierarchicalJson parseDoc bodyContent)
  else if jsonMode = some .jtable ∧ isHtml then
    .obj (columnarToJVal (parseHtmlTablesToColumnarJson bodyContent))
  else if isHtml ∧ ¬htmlMode then .str (sanitize bodyContent)
  else .str bodyContent

/-- The parsed result of the external `simpleParser` as the last-resort
re-fetch consumes it (`parsed.text` / `parsed.html`). -/
structure ParsedMail where
  text : Option String
  html : Option String

/-- The HTML-part stage of the main loop (`body` starts as `''`; a fetched
non-blank HTML part body is processed as HTML; fetch errors are logged and
leave the body empty).  The per-part fetch `connection.getPartData` is the
`fetchPart` oracle (`.error` models a thrown/rejected call). -/
def stageHtml (jsonMode : Option JsonMode) (htmlMode : Bool)
    (parseDoc : String → List Dom) (sanitize : String → String)
    (struct : List StructVal) (fetchPart : StructVal → Except Unit String) : BodyVal :=
  match findHtmlPart struct with
  | none => .str ""
  | some htmlPart =>
    match fetchPart htmlPart with
    | .error _ => .str ""
    | .ok partData =>
      if partData != "" && jsTrim partData != "" then
        processBody jsonMode htmlMode parseDoc sanitize partData true
      else .str ""

/-- The `text/plain` fallback stage: runs only when the body so far has no
content; a successful fetch replaces the body with the raw part data (even
when empty). -/
def stageText (struct : List StructVal) (fetchPart : StructVal → Except Unit String)
    (body : BodyVal) : BodyVal :=
  if !(hasBodyContent body) then
    match findTextPart struct with
    | some textPart =>
      (match fetchPart textPart with
       | .ok partData => .str partData
       | .error _ => body)
    | none => body
  else body

/-- The last-resort stage: re-fetch the message's `TEXT` section by UID and
parse it generically.  `refetchTextRaw` models the awaited
`connection.search` + `TEXT`-part lookup + `normalizePartBody` chain
(`.error` = a throw anywhere in the `try`, `none` = no message or no `TEXT`
part); `parse` models `simpleParser`. -/
def stageRefetch (refetchTextRaw : Except Unit (Option String))
    (parse : String → Except Unit ParsedMail) (body : BodyVal) : BodyVal :=
  if !(hasBodyContent body) then
    match refetchTextRaw with
    | .error _ => body
    | .ok none => body
    | .ok (some rawBody) =>
      match parse rawBody with
      | .error _ => body
      | .ok parsed => .str (jsOrElse parsed.text (jsOrElse parsed.html ""))
  else body

/-- The structured-mode post-step: in `json:html`/`json:table` mode a
non-blank string body is re-processed, treated as HTML iff it matches
`/<[a-z][\s\S]*>/i`. -/
def stagePost (jsonMode : Option JsonMode) (htmlMode : Bool)
    (parseDoc : String → List Dom) (sanitize : String → String)
    (body : BodyVal) : BodyVal :=
  if needsHtmlStructure jsonMode then
    match body with
    | .str s =>
      if jsTrim s != "" then
        processBody jsonMode htmlMode parseDoc sanitize s (htmlTagTest s)
      else body
    | .obj fields => .obj fields
  else body

/-- The complete per-message body resolution of the main loop (lines
1944-1998 of the source): HTML part, then `text/plain` part, then `TEXT`
re-fetch, then the structured-mode post-step. -/
def resolveBody (jsonMode : Option JsonMode) (htmlMode : Bool)
    (parseDoc : String → List Dom) (sanitize : String → String)
    (struct : List StructVal) (fetchPart : StructVal → Except Unit String)
    (refetchTextRaw : Except Unit (Option String))
    (parse : String → Except Unit ParsedMail) : BodyVal :=
  stagePost jsonMode htmlMode parseDoc sanitize
    (stageRefetch refetchTextRaw parse
      (stageText struct fetchPart
        (stageHtml jsonMode htmlMode parseDoc sanitize struct fetchPart)))

/-! ## Specification-side definitions used to state the claims -/

/-- Rule 2's "a filename is present": in `disposition.params.filename` or in
`params.name`/`params.filename` (claim C2's wording). -/
def filenamePresent (disposition : Option Disposition) (params : Option PartParams) : Bool :=
  hasDispositionFilenameOf disposition || hasPartNameOf params

/-- The four attachment-classification rules exactly as claim C2 words them:
(1) disposition kind is `attachment`; (2) a filename is present; (3)
disposition kind is `inline` and (a filename is present or the top-level type
is `application`); (4) the top-level type is `application` and a subtype is
present. -/
def specAttachmentRule (i : Fin 4) (type subtype : Option String)
    (disposition : Option Disposition) (params : Option PartParams) : Bool :=
  match i with
  | 0 => dispositionTypeOf disposition == "attachment"
  | 1 => filenamePresent disposition params
  | 2 => dispositionTypeOf disposition == "inline" &&
         (filenamePresent disposition params || isApplicationOf type)
  | 3 => isApplicationOf type && strTruthy subtype

/-- The first matching rule of the ordered decision list of claim C2. -/
def specFirstMatchingRule (type subtype : Option String)
    (disposition : Option Disposition) (params : Option PartParams) : Option (Fin 4) :=
  if specAttachmentRule 0 type subtype disposition params then some 0
  else if specAttachmentRule 1 type subtype disposition params then some 1
  else if specAttachmentRule 2 type subtype disposition params then some 2
  else if specAttachmentRule 3 type subtype disposition params then some 3
  else none

/-- A chain of wrapper elements around an innermost node, each wrapper having
exactly that one child: `wrapChain [t1, ..., tn] inner` is
`<t1><t2>...<tn>inner</tn>...</t2></t1>` (used to state claim C5's
wrapper-collapsing property). -/
def wrapChain : List String → Dom → Dom
  | [], inner => inner
  | t :: ts, inner => Dom.tag t [wrapChain ts inner]

/-- A tag that the wrapper-collapsing walk treats as ordinary: not skipped,
not void, not transparent, and not `table`. -/
def ordinaryTag (t : String) : Bool :=
  !(isSkipTag t) && !(isVoidTag t) && !(isTransparentTag t) && t != "table"

/-! ## Helper lemmas -/

theorem strTruthy_getD_ne (o : Option String) (h : strTruthy o = true) : o.getD "" ≠ "" := by
  cases o with
  | none => simp [strTruthy] at h
  | some s =>
    simp only [strTruthy, bne_iff_ne, ne_eq] at h
    simpa using h

theorem attachmentDot_append_ne_empty (x : String) : ("attachment." ++ x) ≠ "" := by
  intro h
  have hlen := congrArg String.length h
  rw [String.length_append] at hlen
  have h11 : ("attachment." : String).length = 11 := rfl
  have h0 : ("" : String).length = 0 := rfl
  omega

theorem getAttachmentFilename_ne_empty (a : AttachmentPart) :
    getAttachmentFilename a ≠ "" := by
  simp only [getAttachmentFilename]
  by_cases h1 : strTruthy (a.disposition.bind fun d => d.params.bind fun p => p.filename) = true
  · rw [if_pos h1]
    exact strTruthy_getD_ne _ h1
  · rw [if_neg h1]
    by_cases h2 : strTruthy (a.params.bind fun p => p.name) = true
    · rw [if_pos h2]
      exact strTruthy_getD_ne _ h2
    · rw [if_neg h2]
      by_cases h3 : strTruthy (a.params.bind fun p => p.filename) = true
      · rw [if_pos h3]
        exact strTruthy_getD_ne _ h3
      · rw [if_neg h3]
        by_cases h4 : strTruthy a.subtype = true
        · rw [if_pos h4]
          exact attachmentDot_append_ne_empty _
        · rw [if_neg h4]
          decide

theorem mapFilenames_filter_eq (l : List AttachmentPart) :
    (l.map getAttachmentFilename).filter (fun n => n != "") = l.map getAttachmentFilename := by
  apply List.filter_eq_self.mpr
  intro x hx
  rcases List.mem_map.mp hx with ⟨a, _, rfl⟩
  simpa [bne_iff_ne] using getAttachmentFilename_ne_empty a

/-! ## Claim C3 — truncation -/

/-- C3: under the default projection (no full-body, no raw-html mode, no
specific email number) a string body longer than 200 characters is truncated
to its first 200 characters plus `"..."` — hence exactly 203 characters —
while full-body mode, raw-html mode, a specific email number, or a structured
object body each leave the body unmodified. -/
theorem claim_C3 :
    (∀ s : String, 200 < s.length →
      truncateBody false false none (.str s) = .str (jsSubstringTo s 200 ++ "...")) ∧
    (∀ s : String, 200 < s.length →
      ∃ t : String, truncateBody false false none (.str s) = .str t ∧ t.length = 203) ∧
    (∀ (hm : Bool) (em : Option Int) (b : BodyVal), truncateBody true hm em b = b) ∧
    (∀ (fb : Bool) (em : Option Int) (b : BodyVal), truncateBody fb true em b = b) ∧
    (∀ (fb hm : Bool) (n : Int) (b : BodyVal), truncateBody fb hm (some n) b = b) ∧
    (∀ (fb hm : Bool) (em : Option Int) (fields : List (String × JVal)),
      truncateBody fb hm em (.obj fields) = .obj fields) := by
  have htrunc : ∀ s : String, 200 < s.length →
      truncateBody false false none (.str s) = .str (jsSubstringTo s 200 ++ "...") := by
    intro s hs
    have hne : s ≠ "" := by
      intro h
      subst h
      simp at hs
    unfold truncateBody
    simp only [Bool.or_self, Bool.or_false, Option.isSome_none, Bool.false_or]
    rw [if_neg (by simp)]
    rw [if_neg (by simp [bodyTruthy, bne_iff_ne, hne])]
    rw [if_neg (by simp [MAX_BODY_PREVIEW_LENGTH]; omega)]
    rfl
  refine ⟨htrunc, ?_, ?_, ?_, ?_, ?_⟩
  · intro s hs
    refine ⟨jsSubstringTo s 200 ++ "...", htrunc s hs, ?_⟩
    rw [String.length_append]
    have h1 : (jsSubstringTo s 200).length = 200 := by
      show (s.data.take 200).length = 200
      rw [List.length_take]
      have : s.length = s.data.length := rfl
      omega
    have h2 : ("..." : String).length = 3 := rfl
    omega
  · intro hm em b
    rfl
  · intro fb em b
    cases fb <;> rfl
  · intro fb hm n b
    cases fb <;> cases hm <;> rfl
  · intro fb hm em fields
    cases fb <;> cases hm <;> cases em <;> rfl

/-- Witness for C3 at a concrete 500-character body. -/
theorem claim_C3_witness :
    200 < (String.mk (List.replicate 500 'a')).length ∧
    truncateBody false false none (.str (String.mk (List.replicate 500 'a'))) =
      .str (jsSubstringTo (String.mk (List.replicate 500 'a')) 200 ++ "...") ∧
    jsSubstringTo (String.mk (List.replicate 500 'a')) 200 ++ "..." =
      String.mk (List.replicate 200 'a') ++ "..." := by
  have hlen : 200 < (String.mk (List.replicate 500 'a')).length := by
    show 200 < (List.replicate 500 'a').length
    rw [List.length_replicate]
    omega
  refine ⟨hlen, claim_C3.1 _ hlen, ?_⟩
  show String.mk ((List.replicate 500 'a').take 200) ++ "..." = _
  rw [List.take_replicate]
  norm_num

/-! ## Claim C2 — attachment classification decision list -/

/-- C2: per-part attachment classification is the ordered first-match
decision list of the four stated rules — the branch of the source's
`if`/`else if` chain that pushes a part is exactly the first matching rule,
and a part is classified as an attachment iff some rule matches. -/
theorem claim_C2 :
    ∀ (type subtype : Option String) (disposition : Option Disposition)
      (params : Option PartParams),
      attachmentBranch type subtype disposition params =
        specFirstMatchingRule type subtype disposition params ∧
      isAttachmentPart type subtype disposition params =
        (specAttachmentRule 0 type subtype disposition params ||
         specAttachmentRule 1 type subtype disposition params ||
         specAttachmentRule 2 type subtype disposition params ||
         specAttachmentRule 3 type subtype disposition params) := by
  intro type subtype disposition params
  cases h1 : dispositionTypeOf disposition == "attachment" <;>
    cases h2 : hasDispositionFilenameOf disposition <;>
    cases h3 : hasPartNameOf params <;>
    cases h4 : dispositionTypeOf disposition == "inline" <;>
    cases h5 : isApplicationOf type <;>
    cases h6 : strTruthy subtype <;>
    simp [attachmentBranch, specFirstMatchingRule, specAttachmentRule,
      isAttachmentPart, filenamePresent, h1, h2, h3, h4, h5, h6]

/-! ## Claim C10 — filename resolution is total and non-empty -/

/-- C10: `getAttachmentFilename` always returns a non-empty string, so
struct-based summarization can never produce the bare `true` value (it is
`false` or a non-empty name string); the bare `true` can only arise from the
raw-message parse fallback, as the concrete instance shows. -/
theorem claim_C10 :
    (∀ a : AttachmentPart, getAttachmentFilename a ≠ "") ∧
    (∀ struct : Option StructVal, getAttachmentSummary struct ≠ .bool true) ∧
    getAttachmentSummaryFromMessage none (some "raw message data") none
      (fun _ => .ok [⟨none⟩]) = .bool true := by
  refine ⟨getAttachmentFilename_ne_empty, ?_, rfl⟩
  intro struct
  cases h : findAttachmentsInStruct struct with
  | nil => simp [getAttachmentSummary, h]
  | cons a as =>
    simp only [getAttachmentSummary, h, mapFilenames_filter_eq]
    cases as <;> simp

/-- Witness for C10 at concrete inputs. -/
theorem claim_C10_witness :
    getAttachmentFilename ⟨some "application", some "pdf", none, none⟩ ≠ "" ∧
    getAttachmentSummary (some (.arr [.part (some "text") (some "plain") none none none])) ≠
      .bool true :=
  ⟨claim_C10.1 _, claim_C10.2.1 _⟩

/-! ## Claim C8 — attachment summary values and parse-failure handling -/

/-- C8: the struct summary is `false` when classification finds nothing, a
single resolved filename unjoined when exactly one attachment is found, the
filenames joined with `", "` when more are found; and in the raw-message
fallback a parse failure is caught and mapped to `false`, never
propagated. -/
theorem claim_C8 :
    (∀ struct, findAttachmentsInStruct struct = [] →
      getAttachmentSummary struct = .bool false) ∧
    (∀ struct a, findAttachmentsInStruct struct = [a] →
      getAttachmentSummary struct = .str (getAttachmentFilename a)) ∧
    (∀ struct ats, findAttachmentsInStruct struct = ats → 2 ≤ ats.length →
      getAttachmentSummary struct =
        .str (String.intercalate ", " (ats.map getAttachmentFilename))) ∧
    (∀ struct rawPart refetchRaw parse,
      summaryTruthy (getAttachmentSummary struct) = false →
      (∀ x, parse x = .error ()) →
      getAttachmentSummaryFromMessage struct rawPart refetchRaw parse = .bool false) := by
  refine ⟨?_, ?_, ?_, ?_⟩
  · intro struct h
    simp [getAttachmentSummary, h]
  · intro struct a h
    have hne := getAttachmentFilename_ne_empty a
    simp [getAttachmentSummary, h, List.filter_cons, bne_iff_ne, hne]
  · intro struct ats h hlen
    match ats, hlen with
    | a :: b :: rest, _ =>
      have hfilter := mapFilenames_filter_eq (a :: b :: rest)
      simp only [List.map] at hfilter
      have hne_a := getAttachmentFilename_ne_empty a
      simp [getAttachmentSummary, h, hfilter, hne_a]
  · intro struct rawPart refetchRaw parse hsum hparse
    simp only [getAttachmentSummaryFromMessage, hsum, Bool.false_eq_true, if_false]
    cases rawPart with
    | some r =>
      simp only [hparse r]
      split <;> rfl
    | none =>
      cases refetchRaw with
      | none => rfl
      | some e =>
        cases e with
        | error u => rfl
        | ok r =>
          cases r with
          | none => rfl
          | some raw =>
            simp only [hparse raw]
            split <;> rfl

/-- Witness for C8 at concrete structs (none, one, two attachments) and a
failing parser. -/
theorem claim_C8_witness :
    getAttachmentSummary (some (.arr [.part (some "text") (some "plain") none none none])) =
      .bool false ∧
    getAttachmentSummary (some (.arr [.part (some "application") (some "pdf")
        (some ⟨some "attachment", some ⟨some "file.pdf"⟩⟩) none none])) = .str "file.pdf" ∧
    getAttachmentSummary (some (.arr [
        .part (some "application") (some "pdf")
          (some ⟨some "attachment", some ⟨some "a.pdf"⟩⟩) none none,
        .part (some "application") (some "zip")
          (some ⟨some "attachment", some ⟨some "b.zip"⟩⟩) none none])) =
      .str "a.pdf, b.zip" ∧
    getAttachmentSummaryFromMessage none (some "raw text") none
      (fun _ => .error ()) = .bool false := by
  refine ⟨claim_C8.1 _ rfl, ?_, ?_, claim_C8.2.2.2 none (some "raw text") none _ rfl
    (fun _ => rfl)⟩
  · have h := claim_C8.2.1 (some (.arr [.part (some "application") (some "pdf")
        (some ⟨some "attachment", some ⟨some "file.pdf"⟩⟩) none none]))
      ⟨some "application", some "pdf",
        some ⟨some "attachment", some ⟨some "file.pdf"⟩⟩, none⟩ rfl
    simpa using h
  · have h := claim_C8.2.2.1 (some (.arr [
        .part (some "application") (some "pdf")
          (some ⟨some "attachment", some ⟨some "a.pdf"⟩⟩) none none,
        .part (some "application") (some "zip")
          (some ⟨some "attachment", some ⟨some "b.zip"⟩⟩) none none]))
      [⟨some "application", some "pdf", some ⟨some "attachment", some ⟨some "a.pdf"⟩⟩, none⟩,
       ⟨some "application", some "zip", some ⟨some "attachment", some ⟨some "b.zip"⟩⟩, none⟩]
      rfl (by decide)
    simpa using h

/-! ## Claim C6 — columnar table extraction -/

/-- C6: the first row's cells become column names and each subsequent row
fills the columns in order, a missing cell contributing the empty string; on
the claim's example table the result is exactly
`{"Field": ["Name"], "Response": ["John Doe"]}`; any input in which the table
scan finds no table yields the empty mapping, not an error. -/
theorem claim_C6 :
    parseHtmlTablesToColumnarJson
        "<table><tr><th>Field</th><th>Response</th></tr><tr><td>Name</td><td>John Doe</td></tr></table>" =
      [("Field", ["Name"]), ("Response", ["John Doe"])] ∧
    parseHtmlTablesToColumnarJson
        "<table><tr><th>A</th><th>B</th></tr><tr><td>x</td></tr></table>" =
      [("A", ["x"]), ("B", [""])] ∧
    (∀ s : String, extractTagBlocks "table" s = [] →
      parseHtmlTablesToColumnarJson s = []) := by
  refine ⟨rfl, rfl, ?_⟩
  intro s h
  by_cases hs : (s == "") = true
  · simp [parseHtmlTablesToColumnarJson, hs]
  · simp [parseHtmlTablesToColumnarJson, hs, h]

/-- Witness for C6's no-table clause on a concrete tableless input. -/
theorem claim_C6_witness :
    extractTagBlocks "table" "hello <p>x</p>" = [] ∧
    parseHtmlTablesToColumnarJson "hello <p>x</p>" = [] :=
  ⟨rfl, claim_C6.2.2 "hello <p>x</p>" rfl⟩

/-! ## Claim C4 — duplicate sibling keys (corrected) -/

/-- C4 counterexample: three sibling tables at one level.  The second
occurrence promotes the slot to a two-element array, but the third occurrence
— whose value is itself an array of rows — does not append: the slot is
re-promoted to `[[first, second], third]` instead of the claimed
`[first, second, third]`. -/
theorem claim_C4_counterexample :
    parseHtmlToHierarchicalJsonDom
        [.tag "table" [.tag "tr" [.tag "td" [.text "a"]]],
         .tag "table" [.tag "tr" [.tag "td" [.text "b"]]],
         .tag "table" [.tag "tr" [.tag "td" [.text "c"]]]] =
      [("table", .arr [.arr [.arr [.arr [.str "a"]], .arr [.arr [.str "b"]]],
                       .arr [.arr [.str "c"]]])] ∧
    JVal.arr [.arr [.arr [.arr [.str "a"]], .arr [.arr [.str "b"]]], .arr [.arr [.str "c"]]] ≠
      JVal.arr [.arr [.arr [.str "a"]], .arr [.arr [.str "b"]], .arr [.arr [.str "c"]]] := by
  refine ⟨rfl, ?_⟩
  simp

theorem setField_map_fst (obj : List (String × JVal)) (key : String) (value : JVal) :
    (setField obj key value).map Prod.fst = obj.map Prod.fst := by
  induction obj with
  | nil => rfl
  | cons kv rest ih =>
    obtain ⟨k, v⟩ := kv
    by_cases hk : (k == key) = true
    · simp [setField, hk]
    · simp [setField, hk, ih]

theorem lookupField_eq_none_iff (obj : List (String × JVal)) (key : String) :
    lookupField obj key = none ↔ key ∉ obj.map Prod.fst := by
  induction obj with
  | nil => simp [lookupField]
  | cons kv rest ih =>
    obtain ⟨k, v⟩ := kv
    by_cases hk : k = key
    · simp [lookupField, hk]
    · simp [lookupField, hk, ih, Ne.symm hk]

theorem keys_nodup_append_key (l : List String) (k : String) (h : l.Nodup)
    (hk : k ∉ l) : (l ++ [k]).Nodup := by
  simp [List.nodup_append, h, hk]

/-- C4 (amended): keys at one level stay unique; when a second sibling with
an already-present tag arrives, a non-array slot is promoted to the pair
`[existing, value]`; a third or later occurrence appends only when the new
value is not itself an array (the case of all ordinary elements, whose values
are strings or objects) — an array value (an extracted table's row list)
instead re-promotes the slot to `[existing-array, value]`; in particular
`<p>a</p><p>b</p>` at one level yields `{"p": ["a","b"]}` and a third `<p>`
appends. -/
theorem claim_C4_amended :
    (∀ (obj : List (String × JVal)) (key : String) (value : JVal),
      lookupField obj key = none → addToResult obj key value = obj ++ [(key, value)]) ∧
    (∀ (obj : List (String × JVal)) (key : String) (value old : JVal),
      lookupField obj key = some old → isArrayJ old = false →
      addToResult obj key value = setField obj key (.arr [old, value])) ∧
    (∀ (obj : List (String × JVal)) (key : String) (value : JVal) (xs : List JVal),
      lookupField obj key = some (.arr xs) → isArrayJ value = false →
      addToResult obj key value = setField obj key (.arr (xs ++ [value]))) ∧
    (∀ (obj : List (String × JVal)) (key : String) (value : JVal) (xs : List JVal),
      lookupField obj key = some (.arr xs) → isArrayJ value = true →
      addToResult obj key value = setField obj key (.arr [.arr xs, value])) ∧
    (∀ (obj : List (String × JVal)) (key : String) (value : JVal),
      (obj.map Prod.fst).Nodup → ((addToResult obj key value).map Prod.fst).Nodup) ∧
    parseHtmlToHierarchicalJsonDom [.tag "p" [.text "a"], .tag "p" [.text "b"]] =
      [("p", .arr [.str "a", .str "b"])] ∧
    parseHtmlToHierarchicalJsonDom
        [.tag "p" [.text "a"], .tag "p" [.text "b"], .tag "p" [.text "c"]] =
      [("p", .arr [.str "a", .str "b", .str "c"])] := by
  refine ⟨?_, ?_, ?_, ?_, ?_, rfl, rfl⟩
  · intro obj key value h
    simp [addToResult, h]
  · intro obj key value old h harr
    cases old with
    | arr xs => simp [isArrayJ] at harr
    | str s => simp [addToResult, h]
    | obj f => simp [addToResult, h]
  · intro obj key value xs h harr
    simp [addToResult, h, harr]
  · intro obj key value xs h harr
    simp [addToResult, h, harr]
  · intro obj key value hnodup
    cases h : lookupField obj key with
    | none =>
      have hmem := (lookupField_eq_none_iff obj key).mp h
      simp only [addToResult, h, List.map_append]
      exact keys_nodup_append_key _ _ hnodup hmem
    | some old =>
      cases old with
      | arr xs =>
        simp only [addToResult, h]
        split <;> (rw [setField_map_fst]; exact hnodup)
      | str s =>
        simp only [addToResult, h]
        rw [setField_map_fst]
        exact hnodup
      | obj f =>
        simp only [addToResult, h]
        rw [setField_map_fst]
        exact hnodup

/-- Witness for C4's amended per-case laws at concrete objects. -/
theorem claim_C4_amended_witness :
    addToResult [] "p" (.str "a") = [("p", .str "a")] ∧
    addToResult [("p", .str "a")] "p" (.str "b") =
      [("p", .arr [.str "a", .str "b"])] ∧
    addToResult [("p", .arr [.str "a", .str "b"])] "p" (.str "c") =
      [("p", .arr [.str "a", .str "b", .str "c"])] ∧
    addToResult [("table", .arr [.arr [.str "r1"]])] "table" (.arr [.arr [.str "r2"]]) =
      [("table", .arr [.arr [.arr [.str "r1"]], .arr [.arr [.str "r2"]]])] ∧
    (([("p", JVal.arr [.str "a", .str "b", .str "c"])].map Prod.fst).Nodup) := by
  refine ⟨?_, ?_, ?_, ?_, ?_⟩
  · have h := claim_C4_amended.1 [] "p" (.str "a") rfl
    simpa using h
  · have h := claim_C4_amended.2.1 [("p", .str "a")] "p" (.str "b") (.str "a") rfl rfl
    simpa using h
  · have h := claim_C4_amended.2.2.1 [("p", .arr [.str "a", .str "b"])] "p" (.str "c")
      [.str "a", .str "b"] rfl rfl
    simpa using h
  · have h := claim_C4_amended.2.2.2.1 [("table", .arr [.arr [.str "r1"]])] "table"
      (.arr [.arr [.str "r2"]]) [.arr [.str "r1"]] rfl rfl
    simpa using h
  · exact claim_C4_amended.2.2.2.2.1 [] "p" (.arr [.str "a", .str "b", .str "c"])
      List.nodup_nil

/-! ## Claim C7 — pipe-delimited table rows in sanitizeHtml -/

/-- C7: the custom `dataTable` formatter renders every table row with cells
as one pipe-delimited line of its cell texts — cell text flattened from the
cell's text nodes only (nested markup stripped), whitespace-collapsed and
trimmed — and on the claim's `[["A","B"],["1","2"]]` table the emitted block
text is exactly the two lines `| A | B |` and `| 1 | 2 |`. -/
theorem claim_C7 :
    (∀ cs : List Dom, (cs.filterMap fmtCellOf).length > 0 →
      fmtRowsNode (Dom.tag "tr" cs) =
        ["| " ++ String.intercalate " | " (cs.filterMap fmtCellOf) ++ " |"]) ∧
    (∀ (n : String) (ccs : List Dom), (n == "td" || n == "th") = true →
      fmtCellOf (Dom.tag n ccs) = some (jsTrim (collapseWs (cellTextList ccs)))) ∧
    dataTableRows
        (.tag "table" [.tag "tr" [.tag "td" [.text "A"], .tag "td" [.text "B"]],
                       .tag "tr" [.tag "td" [.text "1"], .tag "td" [.text "2"]]]) =
      ["| A | B |", "| 1 | 2 |"] ∧
    dataTableInline
        (.tag "table" [.tag "tr" [.tag "td" [.text "A"], .tag "td" [.text "B"]],
                       .tag "tr" [.tag "td" [.text "1"], .tag "td" [.text "2"]]]) =
      "| A | B |\n| 1 | 2 |" ∧
    dataTableRows
        (.tag "table" [.tag "tbody" [.tag "tr" [.tag "td" [.tag "b" [.text "  A  "]],
                                                .tag "td" [.text "B"]]]]) =
      ["| A | B |"] := by
  refine ⟨?_, ?_, rfl, rfl, rfl⟩
  · intro cs h
    simp [fmtRowsNode, h]
  · intro n ccs h
    simp [fmtCellOf, h, getCellText, domChildren]

/-- Witness for C7's row- and cell-rendering laws at concrete nodes. -/
theorem claim_C7_witness :
    (([Dom.tag "td" [Dom.text "A"], Dom.tag "td" [Dom.text "B"]].filterMap fmtCellOf).length > 0) ∧
    fmtRowsNode (Dom.tag "tr" [Dom.tag "td" [Dom.text "A"], Dom.tag "td" [Dom.text "B"]]) =
      ["| " ++ String.intercalate " | "
        ([Dom.tag "td" [Dom.text "A"], Dom.tag "td" [Dom.text "B"]].filterMap fmtCellOf) ++ " |"] ∧
    fmtCellOf (Dom.tag "td" [Dom.text " x  y "]) =
      some (jsTrim (collapseWs (cellTextList [Dom.text " x  y "]))) := by
  refine ⟨?_, ?_, claim_C7.2.1 "td" [Dom.text " x  y "] rfl⟩
  · decide
  · exact claim_C7.1 [Dom.tag "td" [Dom.text "A"], Dom.tag "td" [Dom.text "B"]] (by decide)

/-! ## Claim C5 — wrapper collapsing -/

theorem ordinaryTag_spec (t : String) (h : ordinaryTag t = true) :
    isSkipTag t = false ∧ isVoidTag t = false ∧ isTransparentTag t = false ∧
    t ≠ "table" := by
  simp only [ordinaryTag, Bool.and_eq_true, Bool.not_eq_true', bne_iff_ne, ne_eq] at h
  exact ⟨h.1.1.1, h.1.1.2, h.1.2, h.2⟩

theorem wrapChain_tag_shape (ts : List String) (en : String) (ecs : List Dom)
    (hts : ∀ t ∈ ts, ordinaryTag t = true)
    (hskip : isSkipTag en = false) (hvoid : isVoidTag en = false) :
    ∃ n cs, wrapChain ts (Dom.tag en ecs) = Dom.tag n cs ∧
      isSkipTag n = false ∧ isVoidTag n = false := by
  cases ts with
  | nil => exact ⟨en, ecs, rfl, hskip, hvoid⟩
  | cons t ts' =>
    obtain ⟨h1, h2, _, _⟩ := ordinaryTag_spec t (hts t (by simp))
    exact ⟨t, [wrapChain ts' (Dom.tag en ecs)], rfl, h1, h2⟩

theorem getMeaningfulChildren_wrap (t : String) (x : Dom)
    (hx : isMeaningfulChild x = true) :
    getMeaningfulChildren (Dom.tag t [x]) = [x] := by
  simp [getMeaningfulChildren, domChildren, List.filter, hx]

theorem chainLen_le_domSize (tags : List String) (inner : Dom) :
    tags.length ≤ domSize (wrapChain tags inner) := by
  induction tags with
  | nil => exact Nat.zero_le _
  | cons t ts ih =>
    simp only [wrapChain, domSize, domListSize, List.length_cons]
    omega

theorem collapseWrappersGo_chain (tags : List String) :
    ∀ (fuel : Nat) (en : String) (ecs : List Dom),
      tags ≠ [] →
      (∀ t ∈ tags, ordinaryTag t = true) →
      isSkipTag en = false → isVoidTag en = false →
      isTransparentTag en = false → en ≠ "table" →
      singleTagChildOf (getMeaningfulChildren (Dom.tag en ecs)) = false →
      tags.length ≤ fuel →
      collapseWrappersGo fuel (wrapChain tags (Dom.tag en ecs)) =
        (en, Dom.tag en ecs) := by
  induction tags with
  | nil =>
    intro fuel en ecs hne
    exact absurd rfl hne
  | cons t ts ih =>
    intro fuel en ecs _ htags hskip hvoid htrans htable hsingle hfuel
    match fuel, hfuel with
    | f + 1, hfuel =>
      obtain ⟨n, cs, hnext, hnskip, hnvoid⟩ := wrapChain_tag_shape ts en ecs
        (fun u hu => htags u (List.mem_cons_of_mem _ hu)) hskip hvoid
      have hm : getMeaningfulChildren (Dom.tag t [wrapChain ts (Dom.tag en ecs)]) =
          [wrapChain ts (Dom.tag en ecs)] := by
        apply getMeaningfulChildren_wrap
        rw [hnext]
        simp [isMeaningfulChild, hnskip, hnvoid]
      cases ts with
      | nil =>
        show collapseWrappersGo (f + 1) (Dom.tag t [Dom.tag en ecs]) = _
        unfold collapseWrappersGo
        simp only [wrapChain] at hm
        rw [hm]
        simp [beq_iff_eq, htable, htrans, hsingle]
      | cons u us =>
        show collapseWrappersGo (f + 1)
          (Dom.tag t [wrapChain (u :: us) (Dom.tag en ecs)]) = _
        unfold collapseWrappersGo
        rw [hm]
        simp only [wrapChain]
        obtain ⟨_, _, hutrans, hutable⟩ := ordinaryTag_spec u (htags u (by simp))
        obtain ⟨n', cs', hnext', hnskip', hnvoid'⟩ := wrapChain_tag_shape us en ecs
          (fun w hw => htags w (by simp [hw])) hskip hvoid
        have hm' : getMeaningfulChildren (Dom.tag u [wrapChain us (Dom.tag en ecs)]) =
            [wrapChain us (Dom.tag en ecs)] := by
          apply getMeaningfulChildren_wrap
          rw [hnext']
          simp [isMeaningfulChild, hnskip', hnvoid']
        rw [if_neg (by simp [beq_iff_eq, hutable]), if_neg (by simp [hutrans]),
          if_pos (by rw [hm', hnext']; rfl)]
        have hrec := ih f en ecs (by simp) (fun w hw => htags w (by simp [hw]))
          hskip hvoid htrans htable hsingle (by simp at hfuel ⊢; omega)
        simpa [wrapChain] using hrec

/-- C5: a run of wrapper elements, each with exactly one meaningful child
element, collapses to the deepest such element's tag and node; on the DOM of
`<div><p><span>hi</span></p></div>` the full hierarchical transform yields
exactly `{"span": "hi"}`. -/
theorem claim_C5 :
    (∀ (tags : List String) (en : String) (ecs : List Dom),
      tags ≠ [] → (∀ t ∈ tags, ordinaryTag t = true) →
      isSkipTag en = false → isVoidTag en = false →
      isTransparentTag en = false → en ≠ "table" →
      singleTagChildOf (getMeaningfulChildren (Dom.tag en ecs)) = false →
      collapseWrappers (wrapChain tags (Dom.tag en ecs)) = (en, Dom.tag en ecs)) ∧
    parseHtmlToHierarchicalJsonDom
        [.tag "div" [.tag "p" [.tag "span" [.text "hi"]]]] =
      [("span", .str "hi")] := by
  refine ⟨?_, rfl⟩
  intro tags en ecs hne htags hskip hvoid htrans htable hsingle
  unfold collapseWrappers
  exact collapseWrappersGo_chain tags _ en ecs hne htags hskip hvoid htrans htable
    hsingle (chainLen_le_domSize tags _)

/-- Witness for C5's collapse law at the `div`/`p` wrapper chain around a
`span`. -/
theorem claim_C5_witness :
    collapseWrappers (wrapChain ["div", "p"] (Dom.tag "span" [Dom.text "hi"])) =
      ("span", Dom.tag "span" [Dom.text "hi"]) :=
  claim_C5.1 ["div", "p"] "span" [Dom.text "hi"] (by decide) (by decide)
    rfl rfl rfl (by decide) rfl

/-! ## Claims C1 and C9 — the body-resolution fallback chain -/

theorem jsTrim_ne_empty_ne (s : String) (h : jsTrim s ≠ "") : s ≠ "" :=
  fun he => h (by rw [he]; rfl)

theorem hasBodyContent_str_of_trim (s : String) (h : jsTrim s ≠ "") :
    hasBodyContent (.str s) = true := by
  simp [hasBodyContent, beq_iff_eq, jsTrim_ne_empty_ne s h, bne_iff_ne, h]

theorem needsHtmlStructure_iff (jm : Option JsonMode) :
    needsHtmlStructure jm = true ↔ jm = some .jhtml ∨ jm = some .jtable := by
  cases jm with
  | none => decide
  | some m => cases m <;> decide

theorem stagePost_obj (jm : Option JsonMode) (hm : Bool) (pd : String → List Dom)
    (sz : String → String) (fields : List (String × JVal)) :
    stagePost jm hm pd sz (.obj fields) = .obj fields := by
  unfold stagePost
  split <;> rfl

theorem stagePost_not_structured (jm : Option JsonMode) (hm : Bool)
    (pd : String → List Dom) (sz : String → String)
    (hn : needsHtmlStructure jm = false) (b : BodyVal) :
    stagePost jm hm pd sz b = b := by
  simp [stagePost, hn]

theorem stageText_skip (struct : List StructVal)
    (fetch : StructVal → Except Unit String) (b : BodyVal)
    (h : hasBodyContent b = true) : stageText struct fetch b = b := by
  simp [stageText, h]

theorem stageRefetch_skip (refetch : Except Unit (Option String))
    (parse : String → Except Unit ParsedMail) (b : BodyVal)
    (h : hasBodyContent b = true) : stageRefetch refetch parse b = b := by
  simp [stageRefetch, h]

theorem stageHtml_fetch_eq (jm : Option JsonMode) (hm : Bool)
    (pd : String → List Dom) (sz : String → String) (struct : List StructVal)
    (fetch : StructVal → Except Unit String) (hp : StructVal) (c : String)
    (hfind : findHtmlPart struct = some hp) (hfetch : fetch hp = .ok c)
    (htrim : jsTrim c ≠ "") :
    stageHtml jm hm pd sz struct fetch = processBody jm hm pd sz c true := by
  simp [stageHtml, hfind, hfetch, bne_iff_ne, jsTrim_ne_empty_ne c htrim, htrim]

theorem stageHtml_shape (jm : Option JsonMode) (hm : Bool)
    (pd : String → List Dom) (sz : String → String) (struct : List StructVal)
    (fetch : StructVal → Except Unit String)
    (hjm : needsHtmlStructure jm = true) :
    stageHtml jm hm pd sz struct fetch = .str "" ∨
    ∃ fields, stageHtml jm hm pd sz struct fetch = .obj fields := by
  cases hfind : findHtmlPart struct with
  | none => exact Or.inl (by simp [stageHtml, hfind])
  | some hp =>
    cases hfetch : fetch hp with
    | error e => exact Or.inl (by simp [stageHtml, hfind, hfetch])
    | ok c =>
      by_cases hguard : (c != "" && jsTrim c != "") = true
      · have hc : c ≠ "" := by
          have h1 := (Bool.and_eq_true _ _).mp hguard |>.1
          simpa [bne_iff_ne] using h1
        rcases (needsHtmlStructure_iff jm).mp hjm with hjm' | hjm'
        · subst hjm'
          exact Or.inr ⟨parseHtmlToHierarchicalJson pd c,
            by simp [stageHtml, hfind, hfetch, hguard, processBody, hc]⟩
        · subst hjm'
          exact Or.inr ⟨columnarToJVal (parseHtmlTablesToColumnarJson c),
            by simp [stageHtml, hfind, hfetch, hguard, processBody, hc]⟩
      · exact Or.inl (by simp [stageHtml, hfind, hfetch, hguard])

/-- C1 (amended): the pipeline resolves the body by trying, in order, the
HTML leaf (fetched content non-blank ⇒ processed under the requested
projection, and kept when the processed result is non-empty), then the
text/plain leaf (non-blank fetch ⇒ its content taken), then the TEXT
re-fetch (parsed text preferred, else parsed HTML, else the empty string);
in the two structured JSON modes the string body chosen by the second or
third stage is additionally passed through the requested projection when
non-blank (treated as HTML iff it matches an HTML tag pattern), while in all
other modes it is returned unchanged. -/
theorem claim_C1_amended :
    ∀ (jm : Option JsonMode) (hm : Bool) (pd : String → List Dom)
      (sz : String → String) (struct : List StructVal)
      (fetch : StructVal → Except Unit String)
      (refetch : Except Unit (Option String))
      (parse : String → Except Unit ParsedMail),
      (∀ hp c, findHtmlPart struct = some hp → fetch hp = .ok c → jsTrim c ≠ "" →
        stageHtml jm hm pd sz struct fetch = processBody jm hm pd sz c true) ∧
      (hasBodyContent (stageHtml jm hm pd sz struct fetch) = true →
        resolveBody jm hm pd sz struct fetch refetch parse =
          stageHtml jm hm pd sz struct fetch) ∧
      (hasBodyContent (stageHtml jm hm pd sz struct fetch) = false →
        ∀ tp d, findTextPart struct = some tp → fetch tp = .ok d → jsTrim d ≠ "" →
          resolveBody jm hm pd sz struct fetch refetch parse =
            stagePost jm hm pd sz (.str d)) ∧
      (hasBodyContent (stageText struct fetch
          (stageHtml jm hm pd sz struct fetch)) = false →
        ∀ raw parsed, refetch = .ok (some raw) → parse raw = .ok parsed →
          resolveBody jm hm pd sz struct fetch refetch parse =
            stagePost jm hm pd sz
              (.str (jsOrElse parsed.text (jsOrElse parsed.html "")))) ∧
      (needsHtmlStructure jm = false → ∀ b, stagePost jm hm pd sz b = b) := by
  intro jm hm pd sz struct fetch refetch parse
  refine ⟨?_, ?_, ?_, ?_, ?_⟩
  · intro hp c hfind hfetch htrim
    exact stageHtml_fetch_eq jm hm pd sz struct fetch hp c hfind hfetch htrim
  · intro h
    unfold resolveBody
    rw [stageText_skip struct fetch _ h, stageRefetch_skip refetch parse _ h]
    by_cases hn : needsHtmlStructure jm = true
    · rcases stageHtml_shape jm hm pd sz struct fetch hn with hsh | ⟨fields, hsh⟩
      · rw [hsh] at h
        simp [hasBodyContent] at h
      · rw [hsh]
        exact stagePost_obj jm hm pd sz fields
    · exact stagePost_not_structured jm hm pd sz (Bool.not_eq_true _ |>.mp hn) _
  · intro h tp d htp hd htrim
    unfold resolveBody
    have h2 : stageText struct fetch (stageHtml jm hm pd sz struct fetch) = .str d := by
      simp [stageText, h, htp, hd]
    rw [h2, stageRefetch_skip refetch parse _ (hasBodyContent_str_of_trim d htrim)]
  · intro h2 raw parsed hraw hparse
    unfold resolveBody
    have h3 : stageRefetch refetch parse (stageText struct fetch
        (stageHtml jm hm pd sz struct fetch)) =
        .str (jsOrElse parsed.text (jsOrElse parsed.html "")) := by
      simp [stageRefetch, h2, hraw, hparse]
    rw [h3]
  · intro hn b
    exact stagePost_not_structured jm hm pd sz hn b

/-- Witness for C1's amended fallback laws at a concrete message with only a
text/plain part under the default projection. -/
theorem claim_C1_amended_witness :
    resolveBody none false (fun _ => []) (fun s => s)
        [.part (some "text") (some "plain") none none none]
        (fun _ => .ok "hello") (.ok none) (fun _ => .ok ⟨none, none⟩) =
      stagePost none false (fun _ => []) (fun s => s) (.str "hello") ∧
    stagePost none false (fun _ => []) (fun s => s) (.str "hello") = .str "hello" := by
  constructor
  · exact (claim_C1_amended none false (fun _ => []) (fun s => s)
      [.part (some "text") (some "plain") none none none]
      (fun _ => .ok "hello") (.ok none) (fun _ => .ok ⟨none, none⟩)).2.2.1 rfl
      (.part (some "text") (some "plain") none none none) "hello" rfl rfl (by decide)
  · exact (claim_C1_amended none false (fun _ => []) (fun s => s)
      [.part (some "text") (some "plain") none none none]
      (fun _ => .ok "hello") (.ok none) (fun _ => .ok ⟨none, none⟩)).2.2.2.2 rfl
      (.str "hello")

/-- C1 counterexample: with only a text/plain leaf whose fetched content is
`"<p>hi</p>"`, under the columnar-JSON mode, the claim as stated says the
plain content is returned as the body; the code instead passes the string
through the columnar projection (it matches the HTML tag pattern), yielding
the empty mapping rather than the content. -/
theorem claim_C1_counterexample :
    findHtmlPart [StructVal.part (some "text") (some "plain") none none none] = none ∧
    findTextPart [StructVal.part (some "text") (some "plain") none none none] =
      some (.part (some "text") (some "plain") none none none) ∧
    jsTrim "<p>hi</p>" ≠ "" ∧
    resolveBody (some .jtable) false (fun _ => []) (fun s => s)
        [.part (some "text") (some "plain") none none none]
        (fun _ => .ok "<p>hi</p>") (.ok none) (fun _ => .ok ⟨none, none⟩) =
      .obj [] ∧
    BodyVal.obj [] ≠ .str "<p>hi</p>" := by
  refine ⟨rfl, rfl, by decide, rfl, by simp⟩

/-- C9: an empty columnar result `{}` has no body content, so after the HTML
leaf is fetched and projected to the empty mapping under the columnar mode,
the pipeline falls through to the text/plain leaf (or the TEXT re-fetch)
instead of returning the empty mapping as the final body. -/
theorem claim_C9 :
    hasBodyContent (BodyVal.obj []) = false ∧
    (∀ (hm : Bool) (pd : String → List Dom) (sz : String → String)
      (struct : List StructVal) (fetch : StructVal → Except Unit String)
      (refetch : Except Unit (Option String))
      (parse : String → Except Unit ParsedMail) (hp : StructVal) (c : String),
      findHtmlPart struct = some hp → fetch hp = .ok c → jsTrim c ≠ "" →
      parseHtmlTablesToColumnarJson c = [] →
      resolveBody (some .jtable) hm pd sz struct fetch refetch parse =
        stagePost (some .jtable) hm pd sz
          (stageRefetch refetch parse (stageText struct fetch (.obj [])))) ∧
    (∀ (hm : Bool) (pd : String → List Dom) (sz : String → String)
      (struct : List StructVal) (fetch : StructVal → Except Unit String)
      (refetch : Except Unit (Option String))
      (parse : String → Except Unit ParsedMail) (hp : StructVal) (c : String)
      (tp : StructVal) (d : String),
      findHtmlPart struct = some hp → fetch hp = .ok c → jsTrim c ≠ "" →
      parseHtmlTablesToColumnarJson c = [] →
      findTextPart struct = some tp → fetch tp = .ok d → jsTrim d ≠ "" →
      htmlTagTest d = false →
      resolveBody (some .jtable) hm pd sz struct fetch refetch parse = .str d) := by
  have hstage : ∀ (hm : Bool) (pd : String → List Dom) (sz : String → String)
      (struct : List StructVal) (fetch : StructVal → Except Unit String)
      (hp : StructVal) (c : String),
      findHtmlPart struct = some hp → fetch hp = .ok c → jsTrim c ≠ "" →
      parseHtmlTablesToColumnarJson c = [] →
      stageHtml (some .jtable) hm pd sz struct fetch = .obj [] := by
    intro hm pd sz struct fetch hp c hfind hfetch htrim hcols
    rw [stageHtml_fetch_eq (some .jtable) hm pd sz struct fetch hp c hfind hfetch htrim]
    simp [processBody, jsTrim_ne_empty_ne c htrim, hcols, columnarToJVal]
  refine ⟨rfl, ?_, ?_⟩
  · intro hm pd sz struct fetch refetch parse hp c hfind hfetch htrim hcols
    unfold resolveBody
    rw [hstage hm pd sz struct fetch hp c hfind hfetch htrim hcols]
  · intro hm pd sz struct fetch refetch parse hp c tp d hfind hfetch htrim hcols
      htp hd hdtrim htag
    unfold resolveBody
    rw [hstage hm pd sz struct fetch hp c hfind hfetch htrim hcols]
    have h2 : stageText struct fetch (.obj []) = .str d := by
      simp [stageText, hasBodyContent, htp, hd]
    rw [h2, stageRefetch_skip refetch parse _ (hasBodyContent_str_of_trim d hdtrim)]
    simp [stagePost, hdtrim, bne_iff_ne, processBody,
      jsTrim_ne_empty_ne d hdtrim, htag]

/-- Witness for C9 at a concrete message whose HTML part contains no table
and whose plain part is ordinary text. -/
theorem claim_C9_witness :
    resolveBody (some .jtable) false (fun _ => []) (fun s => s)
        [.arr [.part (some "text") (some "plain") none none none,
               .part (some "text") (some "html") none none none]]
        (fun p => match p with
          | .part _ (some "html") _ _ _ => .ok "<p>no table here</p>"
          | _ => .ok "plain text body")
        (.ok none) (fun _ => .ok ⟨none, none⟩) = .str "plain text body" := by
  exact claim_C9.2.2 false (fun _ => []) (fun s => s)
    [.arr [.part (some "text") (some "plain") none none none,
           .part (some "text") (some "html") none none none]]
    (fun p => match p with
      | .part _ (some "html") _ _ _ => .ok "<p>no table here</p>"
      | _ => .ok "plain text body")
    (.ok none) (fun _ => .ok ⟨none, none⟩)
    (.part (some "text") (some "html") none none none) "<p>no table here</p>"
    (.part (some "text") (some "plain") none none none) "plain text body"
    rfl rfl (by decide) rfl rfl rfl (by decide) rfl

end ExtractEmail
